import Mathlib

/-!
Shallow embedding of maildirexport.py (gtozzi/maildirexport) and proofs about
its specification claims.

Strings from the Python source are modelled as `List Char` (Python strings are
sequences of Unicode code points, and `str.translate` acts code point by code
point); byte strings are modelled as `List Nat` with each element < 256.
-/

namespace Maildirexport

/-- Embeds `MaildirExporter.REPLACECHARS` (maildirexport.py line 75): the list
of characters replaced by an underscore in the subject. -/
def REPLACECHARS : List Char := ['*', '.', '\"', '/', '\\', '[', ']', ':', ';', '|']

/-- Embeds `MaildirExporter.MAXSUBJLEN` (line 76). -/
def MAXSUBJLEN : Nat := 100

/-- Embeds membership in `self.removeChars = [chr(i) for i in range(0, 32)]`
(line 84): the ASCII control characters with code points 0 to 31. -/
def isRemoveChar (c : Char) : Bool := c.toNat < 32

/-- Embeds line 124: the first `subject.translate` call, replacing every
occurrence of a character of `REPLACECHARS` by an underscore. -/
def replaceStep (s : List Char) : List Char :=
  s.map (fun c => if REPLACECHARS.contains c then '_' else c)

/-- Embeds line 125: the second `safeSubject.translate` call, removing (not
replacing) every control character with code point 0 to 31. -/
def removeStep (s : List Char) : List Char :=
  s.filter (fun c => !(isRemoveChar c))

/-- The ellipsis character appended on truncation at line 127. -/
def ellipsisChar : Char := '…'

/-- Embeds the subject sanitization of `MaildirExporter.recursiveExport`
(lines 124 to 127): replace the characters of `REPLACECHARS` by underscores,
remove the control characters 0 to 31, then, only if the result is longer than
`MAXSUBJLEN` characters, truncate to the first `MAXSUBJLEN` characters and
append one ellipsis character. -/
def sanitizeSubject (s : List Char) : List Char :=
  if (removeStep (replaceStep s)).length > MAXSUBJLEN then
    (removeStep (replaceStep s)).take MAXSUBJLEN ++ [ellipsisChar]
  else
    removeStep (replaceStep s)

/-- Checks that a character is filesystem-safe in the sense the sanitization
enforces: it is none of the ten `REPLACECHARS` and not a control character
with code point 0 to 31. -/
def safeChar (c : Char) : Bool := !(REPLACECHARS.contains c) && !(isRemoveChar c)


theorem safeChar_contains (c : Char) (h : safeChar c = true) :
    REPLACECHARS.contains c = false := by
  cases hc : REPLACECHARS.contains c
  · rfl
  · unfold safeChar at h
    rw [hc] at h
    simp at h

theorem safeChar_remove (c : Char) (h : safeChar c = true) :
    isRemoveChar c = false := by
  cases hc : isRemoveChar c
  · rfl
  · unfold safeChar at h
    rw [hc] at h
    simp at h

/-- Every character produced by the replacement step avoids `REPLACECHARS`:
it is either an underscore or an input character outside that list. -/
theorem mem_replaceStep_not_replacechar (c : Char) (s : List Char)
    (h : c ∈ replaceStep s) : REPLACECHARS.contains c = false := by
  unfold replaceStep at h
  rcases List.mem_map.mp h with ⟨a, _, rfl⟩
  by_cases hb : REPLACECHARS.contains a = true
  · rw [if_pos hb]
    decide
  · rw [if_neg hb]
    exact Bool.eq_false_iff.mpr hb

/-- Every character of the sanitized subject is safe. -/
theorem mem_sanitizeSubject_safe (c : Char) (s : List Char)
    (h : c ∈ sanitizeSubject s) : safeChar c = true := by
  have core : ∀ d : Char, d ∈ removeStep (replaceStep s) → safeChar d = true := by
    intro d hd
    unfold removeStep at hd
    have h1 := List.mem_filter.mp hd
    have h2 := mem_replaceStep_not_replacechar d s h1.1
    have h3 : isRemoveChar d = false := by
      have h4 := h1.2
      simp only [Bool.not_eq_true'] at h4
      exact h4
    unfold safeChar
    rw [h2, h3]
    rfl
  unfold sanitizeSubject at h
  by_cases hl : (removeStep (replaceStep s)).length > MAXSUBJLEN
  · rw [if_pos hl] at h
    rcases List.mem_append.mp h with h' | h'
    · exact core c (List.mem_of_mem_take h')
    · have hce : c = ellipsisChar := by simpa using h'
      rw [hce]
      decide
  · rw [if_neg hl] at h
    exact core c h

/-- The sanitized subject is never longer than `MAXSUBJLEN + 1` characters. -/
theorem sanitizeSubject_length_le (s : List Char) :
    (sanitizeSubject s).length ≤ MAXSUBJLEN + 1 := by
  unfold sanitizeSubject
  by_cases hl : (removeStep (replaceStep s)).length > MAXSUBJLEN
  · rw [if_pos hl]
    rw [List.length_append, List.length_take]
    simp only [List.length_cons, List.length_nil]
    omega
  · rw [if_neg hl]
    omega

/-- Claim C3: the sanitization (replacement of the ten characters by
underscores, then removal of control characters 0 to 31, then truncation to
100 characters plus an ellipsis only when longer than 100) leaves no unsafe
character in the result and never produces more than 101 characters. -/
theorem sanitize_safe_and_bounded (s : List Char) :
    (sanitizeSubject s).all safeChar = true ∧ (sanitizeSubject s).length ≤ 101 := by
  constructor
  · exact List.all_eq_true.mpr (fun c hc => mem_sanitizeSubject_safe c s hc)
  · exact sanitizeSubject_length_le s

/-- On a list all of whose characters avoid `REPLACECHARS`, the replacement
step is the identity. -/
theorem replaceStep_of_safe (s : List Char)
    (h : ∀ c ∈ s, REPLACECHARS.contains c = false) : replaceStep s = s := by
  unfold replaceStep
  rw [List.map_congr_left (fun c hc => by rw [h c hc])]
  exact List.map_id s

/-- On a list with no control characters, the removal step is the identity. -/
theorem removeStep_of_safe (s : List Char)
    (h : ∀ c ∈ s, isRemoveChar c = false) : removeStep s = s := by
  unfold removeStep
  rw [List.filter_eq_self.mpr]
  intro a ha
  simp [h a ha]

/-- A list of safe characters that is either short or exactly 100 safe
characters followed by one ellipsis is a fixed point of the sanitization. -/
theorem sanitizeSubject_fixed (u : List Char)
    (hsafe : ∀ c ∈ u, safeChar c = true)
    (hshape : u.length ≤ MAXSUBJLEN ∨
      ∃ t : List Char, u = t ++ [ellipsisChar] ∧ t.length = MAXSUBJLEN) :
    sanitizeSubject u = u := by
  have hrep : replaceStep u = u :=
    replaceStep_of_safe _ (fun c hc => safeChar_contains c (hsafe c hc))
  have hrem : removeStep u = u :=
    removeStep_of_safe _ (fun c hc => safeChar_remove c (hsafe c hc))
  unfold sanitizeSubject
  rw [hrep, hrem]
  rcases hshape with hshort | ⟨t, rfl, htlen⟩
  · rw [if_neg (by omega)]
  · have hlen : (t ++ [ellipsisChar]).length = MAXSUBJLEN + 1 := by
      rw [List.length_append, htlen]
      rfl
    rw [if_pos (by omega)]
    rw [List.take_left' htlen]

/-- The sanitized subject is either at most 100 characters long or is exactly
100 characters followed by one ellipsis character. -/
theorem sanitizeSubject_shape (s : List Char) :
    (sanitizeSubject s).length ≤ MAXSUBJLEN ∨
      ∃ t : List Char, sanitizeSubject s = t ++ [ellipsisChar] ∧
        t.length = MAXSUBJLEN := by
  unfold sanitizeSubject
  by_cases hl : (removeStep (replaceStep s)).length > MAXSUBJLEN
  · right
    refine ⟨(removeStep (replaceStep s)).take MAXSUBJLEN, by rw [if_pos hl], ?_⟩
    rw [List.length_take]
    omega
  · left
    rw [if_neg hl]
    omega

/-- Claim C4: subject sanitization is idempotent. -/
theorem sanitize_idempotent (s : List Char) :
    sanitizeSubject (sanitizeSubject s) = sanitizeSubject s :=
  sanitizeSubject_fixed (sanitizeSubject s)
    (fun c hc => mem_sanitizeSubject_safe c s hc)
    (sanitizeSubject_shape s)

/-- A local calendar timestamp with second precision, as produced by
`datetime.datetime.fromtimestamp` (lines 120 and 122). -/
structure DateTime where
  year : Nat
  month : Nat
  day : Nat
  hour : Nat
  minute : Nat
  second : Nat
deriving DecidableEq, Repr

/-- The decimal digit character of `n % 10`. -/
def digitChar (n : Nat) : Char := Char.ofNat (48 + n % 10)

/-- Decimal digit characters of a natural number, most significant first. -/
def natChars (n : Nat) : List Char :=
  if _h : n < 10 then [digitChar n] else natChars (n / 10) ++ [digitChar n]
  termination_by n
  decreasing_by exact Nat.div_lt_self (by omega) (by omega)

/-- Left zero padding to a given width, as `strftime` zero-pads its numeric
fields. -/
def padZero (w : Nat) (l : List Char) : List Char :=
  List.replicate (w - l.length) '0' ++ l

/-- Embeds the format string of line 129, `date.strftime` with format
`%Y-%m-%d %H:%M:%S`: the zero-padded fields joined by the literal separators
of the format, including the two colons of the time of day. -/
def formatTimestamp (dt : DateTime) : List Char :=
  padZero 4 (natChars dt.year) ++ ['-'] ++ padZero 2 (natChars dt.month) ++ ['-'] ++
    padZero 2 (natChars dt.day) ++ [' '] ++ padZero 2 (natChars dt.hour) ++ [':'] ++
    padZero 2 (natChars dt.minute) ++ [':'] ++ padZero 2 (natChars dt.second)

/-- The literal suffix appended at line 129. -/
def emlSuffix : List Char := ['.', 'e', 'm', 'l']

/-- Embeds line 129: the derived file name is the formatted timestamp, one
space, the sanitized subject and the `.eml` suffix. -/
def fileNameFor (dt : DateTime) (subject : List Char) : List Char :=
  formatTimestamp dt ++ [' '] ++ sanitizeSubject subject ++ emlSuffix

/-- Checks that a character is a decimal digit, by code point. -/
def digitRange (c : Char) : Bool := 48 ≤ c.toNat && c.toNat ≤ 57

/-- Characters that may appear in a formatted timestamp: decimal digits and
the three literal separators of the format. -/
def tsChar (c : Char) : Bool := digitRange c || c == '-' || c == ' ' || c == ':'

theorem digitChar_isDigit (n : Nat) : digitRange (digitChar n) = true := by
  have h10 : n % 10 < 10 := Nat.mod_lt n (by omega)
  have key : ∀ k, k < 10 → digitRange (Char.ofNat (48 + k)) = true := by decide
  exact key (n % 10) h10

theorem natChars_digits (n : Nat) : ∀ c ∈ natChars n, digitRange c = true := by
  induction n using Nat.strong_induction_on with
  | _ n ih =>
    unfold natChars
    by_cases h : n < 10
    · rw [dif_pos h]
      intro c hc
      have hc' : c = digitChar n := by simpa using hc
      rw [hc']
      exact digitChar_isDigit n
    · rw [dif_neg h]
      intro c hc
      rcases List.mem_append.mp hc with h' | h'
      · exact ih (n / 10) (Nat.div_lt_self (by omega) (by omega)) c h'
      · have hc' : c = digitChar n := by simpa using h'
        rw [hc']
        exact digitChar_isDigit n

theorem padZero_tsChar (w : Nat) (l : List Char)
    (h : ∀ c ∈ l, digitRange c = true) : ∀ c ∈ padZero w l, tsChar c = true := by
  intro c hc
  unfold padZero at hc
  rcases List.mem_append.mp hc with h' | h'
  · have hc' : c = '0' := by
      have := List.eq_of_mem_replicate h'
      exact this
    rw [hc']
    decide
  · have := h c h'
    unfold tsChar
    rw [this]
    rfl

/-- Every character of a formatted timestamp is a digit or one of the three
literal separators of the format string. -/
theorem formatTimestamp_chars (dt : DateTime) :
    (formatTimestamp dt).all tsChar = true := by
  rw [List.all_eq_true]
  intro c hc
  unfold formatTimestamp at hc
  simp only [List.append_assoc, List.mem_append] at hc
  rcases hc with h | h | h | h | h | h | h | h | h | h | h
  all_goals first
    | exact padZero_tsChar _ _ (natChars_digits _) c h
    | · have hc' := List.mem_singleton.mp h
        rw [hc']
        decide

/-- A decimal digit character is filesystem-safe: it is none of the ten
replaced characters and not a control character. -/
theorem digitRange_safe (c : Char) (h : digitRange c = true) : safeChar c = true := by
  unfold digitRange at h
  simp only [Bool.and_eq_true, decide_eq_true_eq] at h
  have hcon : REPLACECHARS.contains c = false := by
    cases hcc : REPLACECHARS.contains c
    · rfl
    · exfalso
      simp only [REPLACECHARS, List.contains_cons, List.contains_nil,
        Bool.or_eq_true, beq_iff_eq] at hcc
      rcases hcc with rfl | rfl | rfl | rfl | rfl | rfl | rfl | rfl | rfl | rfl | h0
      all_goals first
        | exact absurd h.1 (by decide)
        | exact absurd h.2 (by decide)
        | simp at h0
  have hrem : isRemoveChar c = false := by
    simp only [isRemoveChar, decide_eq_false_iff_not]
    omega
  unfold safeChar
  rw [hcon, hrem]
  rfl

/-- A timestamp character is filesystem-safe except for the colon. -/
theorem tsChar_safe_or_colon (c : Char) (h : tsChar c = true) :
    safeChar c = true ∨ c = ':' := by
  unfold tsChar at h
  simp only [Bool.or_eq_true, beq_iff_eq] at h
  rcases h with ((hd | rfl) | rfl) | rfl
  · exact Or.inl (digitRange_safe c hd)
  · exact Or.inl (by decide)
  · exact Or.inl (by decide)
  · exact Or.inr rfl

/-- Claim C2, counterexample: the derived file name of a concrete message
contains the characters full stop and colon, both of which are in
`REPLACECHARS`, the list of characters the claim says the name avoids. -/
theorem fileName_unsafe_counterexample :
    '.' ∈ fileNameFor ⟨2020, 1, 2, 3, 4, 5⟩ "hello".data ∧
    ':' ∈ fileNameFor ⟨2020, 1, 2, 3, 4, 5⟩ "hello".data ∧
    REPLACECHARS.contains '.' = true ∧ REPLACECHARS.contains ':' = true := by
  refine ⟨?_, ?_, by decide, by decide⟩
  · unfold fileNameFor emlSuffix
    simp [List.mem_append]
  · unfold fileNameFor formatTimestamp
    simp [List.mem_append]

/-- Claim C2 (amended): in the derived file name, the sanitized-subject
portion contains only filesystem-safe characters; every character of the
timestamp portion is safe except the literal colons of the time of day; the
suffix is the literal `.eml`, whose only unsafe character is its leading
full stop; and the name is exactly these three portions joined by a single
space. -/
theorem fileName_unsafe_only_fixed (dt : DateTime) (subject : List Char) :
    fileNameFor dt subject =
      formatTimestamp dt ++ [' '] ++ sanitizeSubject subject ++ emlSuffix ∧
    (sanitizeSubject subject).all safeChar = true ∧
    (∀ c ∈ formatTimestamp dt, safeChar c = true ∨ c = ':') ∧
    emlSuffix = ['.', 'e', 'm', 'l'] ∧
    (∀ c ∈ emlSuffix, safeChar c = true ∨ c = '.') := by
  refine ⟨rfl, ?_, ?_, rfl, by decide⟩
  · exact List.all_eq_true.mpr (fun c hc => mem_sanitizeSubject_safe c subject hc)
  · intro c hc
    have := List.all_eq_true.mp (formatTimestamp_chars dt) c hc
    exact tsChar_safe_or_colon c this

/-- Embeds the date derivation of lines 118 to 122. The date-string parser
`email.utils.parsedate` is an external library collaborator, passed in as
`parsedate : String → Option ParsedDate` over an arbitrary parsed-date type;
applied to an absent header (Python `None`) it returns `None`, which the
`Option.bind` captures. `mktime` (`time.mktime`) turns a parsed date into an
epoch-seconds value and `fromtimestamp` (`datetime.datetime.fromtimestamp`)
turns epoch seconds into a local calendar timestamp; both are library
collaborators passed in as functions. When parsing fails or the header is
absent the code falls back to `fromtimestamp 0`, the Unix epoch in local
time. -/
def deriveDate {ParsedDate : Type} (parsedate : String → Option ParsedDate)
    (mktime : ParsedDate → Int) (fromtimestamp : Int → DateTime)
    (dateHeader : Option String) : DateTime :=
  match dateHeader.bind parsedate with
  | some t => fromtimestamp (mktime t)
  | none => fromtimestamp 0

/-- Claim C5: with any date parser, a message with no Date header and a
message whose Date header the parser rejects resolve to exactly the same
timestamp, the epoch fallback `fromtimestamp 0` (a local-time calendar
timestamp); and when the header parses, the result is the local-time
calendar timestamp of the parsed value, with second precision. -/
theorem deriveDate_fallback {ParsedDate : Type}
    (parsedate : String → Option ParsedDate) (mktime : ParsedDate → Int)
    (fromtimestamp : Int → DateTime) (bad : String)
    (hbad : parsedate bad = none) :
    deriveDate parsedate mktime fromtimestamp none = fromtimestamp 0 ∧
    deriveDate parsedate mktime fromtimestamp (some bad) =
      deriveDate parsedate mktime fromtimestamp none ∧
    (∀ (s : String) (t : ParsedDate), parsedate s = some t →
      deriveDate parsedate mktime fromtimestamp (some s) =
        fromtimestamp (mktime t)) := by
  refine ⟨rfl, ?_, ?_⟩
  · unfold deriveDate
    rw [Option.some_bind, hbad]
    rfl
  · intro s t hs
    unfold deriveDate
    rw [Option.some_bind, hs]

/-- Witness for claim C5 at a concrete parser that rejects every string. -/
theorem deriveDate_fallback_witness :
    deriveDate (fun _ => (none : Option Unit)) (fun _ => 0)
      (fun n => ⟨n.toNat, 0, 0, 0, 0, 0⟩) none = ⟨0, 0, 0, 0, 0, 0⟩ ∧
    deriveDate (fun _ => (none : Option Unit)) (fun _ => 0)
      (fun n => ⟨n.toNat, 0, 0, 0, 0, 0⟩) (some "not a date") =
      deriveDate (fun _ => (none : Option Unit)) (fun _ => 0)
        (fun n => ⟨n.toNat, 0, 0, 0, 0, 0⟩) none := by
  have h := deriveDate_fallback (fun _ => (none : Option Unit)) (fun _ => 0)
    (fun n => ⟨n.toNat, 0, 0, 0, 0, 0⟩) "not a date" rfl
  exact ⟨h.1, h.2.1⟩

/-- The Unicode replacement character produced by Python decoding with
replacement of undecodable bytes. -/
def replacementChar : Char := '�'

/-- Embeds line 105: `subject[0].decode('ascii', errors='replace')`. Bytes
below 128 decode to themselves; every other byte becomes the replacement
character. Total, hence never raises. -/
def asciiReplace (bs : List Nat) : List Char :=
  bs.map (fun b => if b < 128 then Char.ofNat b else replacementChar)

/-- Checks whether a charset label starts with the word unknown, as
`subject[1].startswith('unknown')` at line 104 does. -/
def startsUnknown (cs : String) : Bool := "unknown".data.isPrefixOf cs.data

/-- One decoded segment as returned by `email.header.decode_header`: either
already-decoded text or raw bytes with an optional charset label. Any other
shape raises `NotImplementedError` at line 114 and is outside the model. -/
inductive DecodedSeg where
  | text (s : List Char)
  | bytesSeg (bs : List Nat) (charset : Option String)

/-- Embeds lines 103 to 112, the decoding of a bytes-valued subject segment.
The library collaborators are passed in as functions: `recognized` is
success of `codecs.lookup` (line 108), `strict` is `bytes.decode` with the
named charset (line 112, which may raise, hence `Except`), and `utf8r` is
`bytes.decode(errors='replace')` with the default codec (line 110, total).
The Python guard `not subject[1]` is true for an absent charset (`None`) and
for an empty label, and `or subject[1].startswith('unknown')` extends it to
labels starting with unknown; all those cases decode as ASCII with
replacement (line 105). -/
def decodeSubjectBytes (recognized : String → Bool)
    (strict : String → List Nat → Except Unit (List Char))
    (utf8r : List Nat → List Char) (bs : List Nat) (charset : Option String) :
    Except Unit (List Char) :=
  match charset with
  | none => Except.ok (asciiReplace bs)
  | some cs =>
    if cs.isEmpty || startsUnknown cs then Except.ok (asciiReplace bs)
    else if recognized cs then strict cs bs
    else Except.ok (utf8r bs)

/-- Claim C6: with any codec registry and any strict decoder, a bytes-valued
subject with no charset or with a charset label starting with unknown is
decoded as ASCII with replacement and never raises; with a declared charset
that is not a recognized codec, decoding falls back to the default codec
with replacement, never raising; only with a recognized declared charset is
the strict decoder used, whose result may be an error. -/
theorem decodeSubjectBytes_branches (recognized : String → Bool)
    (strict : String → List Nat → Except Unit (List Char))
    (utf8r : List Nat → List Char) (bs : List Nat) (cs : String) :
    decodeSubjectBytes recognized strict utf8r bs none =
      Except.ok (asciiReplace bs) ∧
    (startsUnknown cs = true →
      decodeSubjectBytes recognized strict utf8r bs (some cs) =
        Except.ok (asciiReplace bs)) ∧
    (cs.isEmpty = false → startsUnknown cs = false → recognized cs = false →
      decodeSubjectBytes recognized strict utf8r bs (some cs) =
        Except.ok (utf8r bs)) ∧
    (cs.isEmpty = false → startsUnknown cs = false → recognized cs = true →
      decodeSubjectBytes recognized strict utf8r bs (some cs) =
        strict cs bs) := by
  refine ⟨rfl, ?_, ?_, ?_⟩
  · intro hu
    simp [decodeSubjectBytes, hu]
  · intro he hu hr
    simp [decodeSubjectBytes, he, hu, hr]
  · intro he hu hr
    simp [decodeSubjectBytes, he, hu, hr]

/-- Witness for claim C6 at a concrete registry recognizing only utf-8, a
strict decoder that always errors, and concrete bytes. -/
theorem decodeSubjectBytes_branches_witness :
    decodeSubjectBytes (fun s => s == "utf-8") (fun _ _ => Except.error ())
      (fun _ => ['x']) [72, 200] none = Except.ok (asciiReplace [72, 200]) ∧
    decodeSubjectBytes (fun s => s == "utf-8") (fun _ _ => Except.error ())
      (fun _ => ['x']) [72, 200] (some "unknown-8bit") =
      Except.ok (asciiReplace [72, 200]) ∧
    decodeSubjectBytes (fun s => s == "utf-8") (fun _ _ => Except.error ())
      (fun _ => ['x']) [72, 200] (some "latin-1") = Except.ok ['x'] ∧
    decodeSubjectBytes (fun s => s == "utf-8") (fun _ _ => Except.error ())
      (fun _ => ['x']) [72, 200] (some "utf-8") = Except.error () := by
  have h := decodeSubjectBytes_branches (fun s => s == "utf-8")
    (fun _ _ => Except.error ()) (fun _ => ['x']) [72, 200]
  exact ⟨(h "x").1, (h "unknown-8bit").2.1 (by decide),
    (h "latin-1").2.2.1 (by decide) (by decide) (by decide),
    (h "utf-8").2.2.2 (by decide) (by decide) (by decide)⟩

/-- The placeholder subject of line 116. -/
def noSubjectPlaceholder : List Char := "(no subject)".data

/-- Embeds the subject derivation of lines 99 to 116. The Python guard
`if message['Subject']` is falsy both when the header is absent (`None`) and
when its value is the empty string; in both cases the placeholder of line
116 is used. Otherwise `email.header.decode_header` (a library collaborator,
passed in as `decodeHeader`) is applied and only its first segment (index 0,
line 100) is consumed; an empty segment list would make the index raise,
modelled as an error. A text segment is used as is (line 102); a bytes
segment goes through `decodeSubjectBytes` (lines 103 to 112). -/
def deriveSubject (decodeHeader : String → List DecodedSeg)
    (recognized : String → Bool)
    (strict : String → List Nat → Except Unit (List Char))
    (utf8r : List Nat → List Char) (subjectHeader : Option String) :
    Except Unit (List Char) :=
  match subjectHeader with
  | none => Except.ok noSubjectPlaceholder
  | some s =>
    if s.isEmpty then Except.ok noSubjectPlaceholder
    else
      match (decodeHeader s).head? with
      | none => Except.error ()
      | some (DecodedSeg.text t) => Except.ok t
      | some (DecodedSeg.bytesSeg bs cs) =>
          decodeSubjectBytes recognized strict utf8r bs cs

/-- Claim C9: with any header decoder and codec registry, a message with no
Subject header and a message whose Subject header is present but empty both
derive the placeholder subject: the placeholder branch is taken for every
falsy Subject value, not only for an absent header. -/
theorem deriveSubject_empty_placeholder (decodeHeader : String → List DecodedSeg)
    (recognized : String → Bool)
    (strict : String → List Nat → Except Unit (List Char))
    (utf8r : List Nat → List Char) :
    deriveSubject decodeHeader recognized strict utf8r none =
      Except.ok noSubjectPlaceholder ∧
    deriveSubject decodeHeader recognized strict utf8r (some "") =
      Except.ok noSubjectPlaceholder ∧
    deriveSubject decodeHeader recognized strict utf8r (some "") =
      deriveSubject decodeHeader recognized strict utf8r none := by
  refine ⟨rfl, ?_, ?_⟩ <;> rfl

/-- Claim C10: the derived subject depends only on the first segment
returned by the header decoder: two decoders agreeing on the first segment
of a Subject value derive the same subject, whatever their remaining
segments are; the tail segments are discarded. -/
theorem deriveSubject_first_segment (dh₁ dh₂ : String → List DecodedSeg)
    (recognized : String → Bool)
    (strict : String → List Nat → Except Unit (List Char))
    (utf8r : List Nat → List Char) (s : String) (seg : DecodedSeg)
    (rest₁ rest₂ : List DecodedSeg)
    (h1 : dh₁ s = seg :: rest₁) (h2 : dh₂ s = seg :: rest₂) :
    deriveSubject dh₁ recognized strict utf8r (some s) =
      deriveSubject dh₂ recognized strict utf8r (some s) := by
  simp only [deriveSubject, h1, h2, List.head?_cons]

/-- Witness for claim C10: a decoder returning two segments and one
returning only the shared first segment derive the same subject. -/
theorem deriveSubject_first_segment_witness :
    deriveSubject (fun _ => [DecodedSeg.text ['a'], DecodedSeg.text ['b']])
      (fun _ => true) (fun _ _ => Except.error ()) (fun _ => [])
      (some "=?x?q?a?=") =
    deriveSubject (fun _ => [DecodedSeg.text ['a']])
      (fun _ => true) (fun _ _ => Except.error ()) (fun _ => [])
      (some "=?x?q?a?=") :=
  deriveSubject_first_segment
    (fun _ => [DecodedSeg.text ['a'], DecodedSeg.text ['b']])
    (fun _ => [DecodedSeg.text ['a']]) (fun _ => true)
    (fun _ _ => Except.error ()) (fun _ => []) "=?x?q?a?=" (DecodedSeg.text ['a'])
    [DecodedSeg.text ['b']] [] rfl rfl

/-- A filesystem node: a plain file with byte content or a directory with
named children. Models the slice of the filesystem the program touches; the
operating system primitives themselves are external collaborators. -/
inductive FSNode where
  | file (content : List Nat)
  | dir (children : List (String × FSNode))

/-- Looks up the child of the given name in a directory listing. -/
def findChild (ch : List (String × FSNode)) (name : String) : Option FSNode :=
  match ch with
  | [] => none
  | (n, v) :: rest => if n = name then some v else findChild rest name

/-- Follows a path of name components from a node, as the OS resolves a
path. -/
def lookupPath : FSNode → List String → Option FSNode
  | n, [] => some n
  | FSNode.file _, _ :: _ => none
  | FSNode.dir ch, name :: rest =>
    match findChild ch name with
    | some c => lookupPath c rest
    | none => none

/-- Models `os.path.isdir`. -/
def isDirAt (fs : FSNode) (p : List String) : Bool :=
  match lookupPath fs p with
  | some (FSNode.dir _) => true
  | _ => false

/-- Models `os.path.exists`. -/
def existsAt (fs : FSNode) (p : List String) : Bool := (lookupPath fs p).isSome

/-- Replaces, inserts or removes the child of the given name in a directory
listing. -/
def setChild (ch : List (String × FSNode)) (name : String) (v : Option FSNode) :
    List (String × FSNode) :=
  match v with
  | none => ch.filter (fun q => q.1 != name)
  | some n =>
    if (findChild ch name).isSome then
      ch.map (fun q => if q.1 = name then (name, n) else q)
    else ch ++ [(name, n)]

/-- Writes (`some`) or removes (`none`) the node at a path. A write models
`os.mkdir` or a file creation; a removal models `shutil.rmtree`, which
deletes the node with its entire subtree. A missing intermediate directory
leaves the tree unchanged (such OS calls fail; the runs considered here
never reach that case). -/
def setPath : FSNode → List String → Option FSNode → FSNode
  | n, [], v => match v with | some m => m | none => n
  | FSNode.dir ch, [name], v => FSNode.dir (setChild ch name v)
  | FSNode.dir ch, name :: b :: rest, v =>
    match findChild ch name with
    | some c => FSNode.dir (setChild ch name (some (setPath c (b :: rest) v)))
    | none => FSNode.dir ch
  | FSNode.file c, _ :: _, _ => FSNode.file c

/-- Models `os.path.basename` on the component-list view of a path. -/
def basename (p : List String) : String := p.getLastD ""

/-- Embeds `Main.exportDir` (lines 53 to 69) as the destination listing
produced from a source listing. Children are visited in listing order;
non-directory children are skipped (line 57); a directory named `Maildir` is
handed to the maildir exporter, which writes into the current destination
directory (line 63) and is a collaborator passed in as `exporter`, mapping
the children of the maildir directory to the entries it adds; any other
directory is recreated by name and recursed into (lines 66 to 69). -/
def exportDir (exporter : List (String × FSNode) → List (String × FSNode)) :
    List (String × FSNode) → List (String × FSNode)
  | [] => []
  | (_, FSNode.file _) :: rest => exportDir exporter rest
  | (name, FSNode.dir ch) :: rest =>
    if name == "Maildir" then exporter ch ++ exportDir exporter rest
    else (name, FSNode.dir (exportDir exporter ch)) :: exportDir exporter rest

/-- Embeds lines 48 to 51 of `Main.run`, after all checks have passed:
create the destination directory (`os.mkdir`), run the export into it, and
fall through the end of the function, returning Python `None` (modelled as
`none`). The export's reads of the source see the state after the directory
creation and its writes all land beneath the destination directory, modelled
as producing that directory's listing. -/
def runCreateAndExport
    (exporter : List (String × FSNode) → List (String × FSNode))
    (fs : FSNode) (srcPath dstDir : List String) : FSNode × Option Bool :=
  let fs1 := setPath fs dstDir (some (FSNode.dir []))
  match lookupPath fs1 srcPath with
  | some (FSNode.dir ch) =>
    (setPath fs1 dstDir (some (FSNode.dir (exportDir exporter ch))), none)
  | _ => (fs1, none)

/-- Embeds `Main.run` (lines 25 to 51) over the filesystem model. The second
component is the Python return value: `some false` for the three explicit
`return False` statements (missing or non-directory source, missing or
non-directory destination, pre-existing destination directory without
force), and `none` for the fall-through at the end of the function, which
returns Python `None` rather than `True`. -/
def run (exporter : List (String × FSNode) → List (String × FSNode))
    (fs : FSNode) (srcPath dstPath : List String) (force : Bool) :
    FSNode × Option Bool :=
  if !(isDirAt fs srcPath) then (fs, some false)
  else if !(isDirAt fs dstPath) then (fs, some false)
  else
    let dstDir := dstPath ++ [basename srcPath]
    if existsAt fs dstDir then
      if force then
        runCreateAndExport exporter (setPath fs dstDir none) srcPath dstDir
      else (fs, some false)
    else
      runCreateAndExport exporter fs srcPath dstDir

theorem findChild_filter_ne (ch : List (String × FSNode)) (name : String) :
    findChild (ch.filter (fun q => q.1 != name)) name = none := by
  induction ch with
  | nil => rfl
  | cons p rest ih =>
    obtain ⟨n, x⟩ := p
    by_cases hn : n = name
    · simp [List.filter_cons, hn, ih]
    · simp only [List.filter_cons]
      rw [if_pos (by simpa using hn)]
      simp [findChild, hn, ih]

theorem findChild_map_set (ch : List (String × FSNode)) (name : String)
    (m : FSNode) (h : (findChild ch name).isSome = true) :
    findChild (ch.map (fun q => if q.1 = name then (name, m) else q)) name =
      some m := by
  induction ch with
  | nil => simp [findChild] at h
  | cons p rest ih =>
    obtain ⟨n, x⟩ := p
    by_cases hn : n = name
    · subst hn
      have hf : (fun q : String × FSNode => if q.1 = n then (n, m) else q) (n, x) =
          (n, m) := by simp
      simp only [List.map_cons, hf]
      simp [findChild]
    · simp only [List.map_cons]
      rw [if_neg (by simpa using hn)]
      simp only [findChild]
      rw [if_neg hn]
      apply ih
      unfold findChild at h
      rw [if_neg hn] at h
      exact h

theorem findChild_append (l1 l2 : List (String × FSNode)) (name : String) :
    findChild (l1 ++ l2) name =
      match findChild l1 name with
      | some v => some v
      | none => findChild l2 name := by
  induction l1 with
  | nil => rfl
  | cons p rest ih =>
    obtain ⟨n, x⟩ := p
    by_cases hn : n = name
    · simp [findChild, hn]
    · simp [findChild, hn, ih]

/-- Setting a child and looking it up round-trips: after a replacement or
insertion the child has the new value, after a removal it is gone. -/
theorem findChild_setChild (ch : List (String × FSNode)) (name : String)
    (v : Option FSNode) : findChild (setChild ch name v) name = v := by
  cases v with
  | none => exact findChild_filter_ne ch name
  | some m =>
    simp only [setChild]
    by_cases h : (findChild ch name).isSome = true
    · rw [if_pos h]
      exact findChild_map_set ch name m h
    · rw [if_neg h]
      rw [findChild_append]
      have hnone : findChild ch name = none := by
        cases hc : findChild ch name
        · rfl
        · rw [hc] at h
          simp at h
      rw [hnone]
      simp [findChild]

theorem lookupPath_nil (fs : FSNode) : lookupPath fs [] = some fs := by
  cases fs <;> rfl

theorem lookupPath_dir_cons (ch : List (String × FSNode)) (name : String)
    (rest : List String) :
    lookupPath (FSNode.dir ch) (name :: rest) =
      match findChild ch name with
      | some c => lookupPath c rest
      | none => none := rfl

/-- After writing (or removing) the node at `p ++ [n]` under an existing
directory at `p`, looking up `p ++ [n]` returns exactly what was written. -/
theorem lookupPath_setPath_last (p : List String) :
    ∀ (fs : FSNode) (n : String) (v : Option FSNode), isDirAt fs p = true →
      lookupPath (setPath fs (p ++ [n]) v) (p ++ [n]) = v := by
  induction p with
  | nil =>
    intro fs n v h
    cases fs with
    | file c => simp [isDirAt, lookupPath] at h
    | dir ch =>
      simp only [List.nil_append]
      rw [show setPath (FSNode.dir ch) [n] v = FSNode.dir (setChild ch n v) from rfl]
      rw [lookupPath_dir_cons, findChild_setChild]
      cases v with
      | none => rfl
      | some m => exact lookupPath_nil m
  | cons name rest ih =>
    intro fs n v h
    cases fs with
    | file c => simp [isDirAt, lookupPath] at h
    | dir ch =>
      obtain ⟨c, hc, hcd⟩ : ∃ c, findChild ch name = some c ∧ isDirAt c rest = true := by
        unfold isDirAt at h
        rw [lookupPath_dir_cons] at h
        cases hfc : findChild ch name with
        | none =>
          rw [hfc] at h
          simp at h
        | some c =>
          rw [hfc] at h
          exact ⟨c, rfl, h⟩
      obtain ⟨b, tl, hbt⟩ : ∃ b tl, rest ++ [n] = b :: tl := by
        cases rest with
        | nil => exact ⟨n, [], rfl⟩
        | cons r rs => exact ⟨r, rs ++ [n], rfl⟩
      rw [List.cons_append, hbt]
      rw [show setPath (FSNode.dir ch) (name :: b :: tl) v =
          match findChild ch name with
          | some c => FSNode.dir (setChild ch name (some (setPath c (b :: tl) v)))
          | none => FSNode.dir ch from rfl]
      rw [hc]
      rw [lookupPath_dir_cons, findChild_setChild]
      rw [← hbt]
      exact ih c n v hcd

/-- Writing or removing at `p ++ [n]` keeps the directory at `p` a
directory. -/
theorem isDirAt_setPath_child (p : List String) :
    ∀ (fs : FSNode) (n : String) (v : Option FSNode), isDirAt fs p = true →
      isDirAt (setPath fs (p ++ [n]) v) p = true := by
  induction p with
  | nil =>
    intro fs n v h
    cases fs with
    | file c => simp [isDirAt, lookupPath] at h
    | dir ch =>
      simp only [List.nil_append]
      rw [show setPath (FSNode.dir ch) [n] v = FSNode.dir (setChild ch n v) from rfl]
      rfl
  | cons name rest ih =>
    intro fs n v h
    cases fs with
    | file c => simp [isDirAt, lookupPath] at h
    | dir ch =>
      obtain ⟨c, hc, hcd⟩ : ∃ c, findChild ch name = some c ∧ isDirAt c rest = true := by
        unfold isDirAt at h
        rw [lookupPath_dir_cons] at h
        cases hfc : findChild ch name with
        | none =>
          rw [hfc] at h
          simp at h
        | some c =>
          rw [hfc] at h
          exact ⟨c, rfl, h⟩
      obtain ⟨b, tl, hbt⟩ : ∃ b tl, rest ++ [n] = b :: tl := by
        cases rest with
        | nil => exact ⟨n, [], rfl⟩
        | cons r rs => exact ⟨r, rs ++ [n], rfl⟩
      rw [List.cons_append, hbt]
      rw [show setPath (FSNode.dir ch) (name :: b :: tl) v =
          match findChild ch name with
          | some c => FSNode.dir (setChild ch name (some (setPath c (b :: tl) v)))
          | none => FSNode.dir ch from rfl]
      rw [hc]
      unfold isDirAt
      rw [lookupPath_dir_cons, findChild_setChild]
      rw [← hbt]
      exact ih c n v hcd

/-- The tail of `run` past all checks returns Python `None` in every case. -/
theorem runCreateAndExport_snd
    (exporter : List (String × FSNode) → List (String × FSNode))
    (fs : FSNode) (srcPath dstDir : List String) :
    (runCreateAndExport exporter fs srcPath dstDir).2 = none := by
  unfold runCreateAndExport
  dsimp only
  split <;> rfl

/-- Claim C1: `Main.run` returns `False` when the source is missing or not a
directory, when the destination is missing or not a directory, and when the
computed destination directory already exists without force; but on the
success path it falls through the end of the function and returns Python
`None` (modelled `none`), not the `True` its docstring promises, so the
claimed success indication is never produced. -/
theorem run_return_value
    (exporter : List (String × FSNode) → List (String × FSNode))
    (fs : FSNode) (src dst : List String) :
    (isDirAt fs src = false → ∀ force,
      run exporter fs src dst force = (fs, some false)) ∧
    (isDirAt fs src = true → isDirAt fs dst = false → ∀ force,
      run exporter fs src dst force = (fs, some false)) ∧
    (isDirAt fs src = true → isDirAt fs dst = true →
      existsAt fs (dst ++ [basename src]) = true →
      run exporter fs src dst false = (fs, some false)) ∧
    (isDirAt fs src = true → isDirAt fs dst = true →
      existsAt fs (dst ++ [basename src]) = false → ∀ force,
      (run exporter fs src dst force).2 = none) := by
  refine ⟨?_, ?_, ?_, ?_⟩
  · intro h force
    simp [run, h]
  · intro h1 h2 force
    simp [run, h1, h2]
  · intro h1 h2 h3
    simp [run, h1, h2, h3]
  · intro h1 h2 h3 force
    simp only [run, h1, h2, h3, Bool.not_true, Bool.false_eq_true, if_false,
      Bool.true_eq_false]
    exact runCreateAndExport_snd exporter fs src (dst ++ [basename src])

/-- Witness for claim C1 at a concrete filesystem with valid source and
destination roots and no pre-existing destination directory: the run
completes and returns Python `None`. -/
theorem run_return_value_witness :
    (run (fun l => l)
      (FSNode.dir [("a", FSNode.dir []), ("b", FSNode.dir [])])
      ["a"] ["b"] false).2 = none :=
  (run_return_value (fun l => l)
    (FSNode.dir [("a", FSNode.dir []), ("b", FSNode.dir [])])
    ["a"] ["b"]).2.2.2 rfl rfl rfl false

/-- Claim C7: when the computed destination directory already exists, a run
without force returns `False` with the filesystem untouched (nothing created
or deleted); a run with force first deletes the pre-existing directory with
its entire subtree (afterwards the path no longer exists), then creates the
new empty destination directory at that path and proceeds with the export. -/
theorem run_destination_exists
    (exporter : List (String × FSNode) → List (String × FSNode))
    (fs : FSNode) (src dst : List String)
    (hsrc : isDirAt fs src = true) (hdst : isDirAt fs dst = true)
    (hex : existsAt fs (dst ++ [basename src]) = true) :
    run exporter fs src dst false = (fs, some false) ∧
    run exporter fs src dst true =
      runCreateAndExport exporter (setPath fs (dst ++ [basename src]) none)
        src (dst ++ [basename src]) ∧
    existsAt (setPath fs (dst ++ [basename src]) none)
      (dst ++ [basename src]) = false ∧
    lookupPath
      (setPath (setPath fs (dst ++ [basename src]) none)
        (dst ++ [basename src]) (some (FSNode.dir [])))
      (dst ++ [basename src]) = some (FSNode.dir []) := by
  refine ⟨?_, ?_, ?_, ?_⟩
  · simp [run, hsrc, hdst, hex]
  · simp [run, hsrc, hdst, hex]
  · unfold existsAt
    rw [lookupPath_setPath_last dst fs (basename src) none hdst]
    rfl
  · exact lookupPath_setPath_last dst (setPath fs (dst ++ [basename src]) none)
      (basename src) (some (FSNode.dir []))
      (isDirAt_setPath_child dst fs (basename src) none hdst)

/-- Witness for claim C7 at a concrete filesystem whose destination already
holds a directory named like the source root, with a file inside it. -/
theorem run_destination_exists_witness :
    run (fun l => l)
      (FSNode.dir [("a", FSNode.dir []),
        ("b", FSNode.dir [("a", FSNode.dir [("old", FSNode.file [7])])])])
      ["a"] ["b"] false =
      (FSNode.dir [("a", FSNode.dir []),
        ("b", FSNode.dir [("a", FSNode.dir [("old", FSNode.file [7])])])],
       some false) ∧
    existsAt
      (setPath (FSNode.dir [("a", FSNode.dir []),
        ("b", FSNode.dir [("a", FSNode.dir [("old", FSNode.file [7])])])])
        (["b"] ++ [basename ["a"]]) none) (["b"] ++ [basename ["a"]]) = false := by
  have h := run_destination_exists (fun l => l)
    (FSNode.dir [("a", FSNode.dir []),
      ("b", FSNode.dir [("a", FSNode.dir [("old", FSNode.file [7])])])])
    ["a"] ["b"] rfl rfl rfl
  exact ⟨h.1, h.2.2.1⟩

/-- Modelled from the spec: the exact directory-structure mirror of a
source listing — every directory child is kept by name and mirrored
recursively, every non-directory child is dropped, and no files are
produced. This is the specification-side description that `exportDir` is
compared against. -/
def dirSkeleton : List (String × FSNode) → List (String × FSNode)
  | [] => []
  | (_, FSNode.file _) :: rest => dirSkeleton rest
  | (name, FSNode.dir ch) :: rest =>
    (name, FSNode.dir (dirSkeleton ch)) :: dirSkeleton rest

/-- Checks that no directory named `Maildir` (the mail-store marker, line
60) occurs anywhere in a listing. -/
def noStoreMarker : List (String × FSNode) → Bool
  | [] => true
  | (_, FSNode.file _) :: rest => noStoreMarker rest
  | (name, FSNode.dir ch) :: rest =>
    !(name == "Maildir") && noStoreMarker ch && noStoreMarker rest

/-- Counts the files anywhere in a listing. -/
def countFilesIn : List (String × FSNode) → Nat
  | [] => 0
  | (_, FSNode.file _) :: rest => 1 + countFilesIn rest
  | (_, FSNode.dir ch) :: rest => countFilesIn ch + countFilesIn rest

theorem dirSkeleton_no_files (ch : List (String × FSNode)) :
    countFilesIn (dirSkeleton ch) = 0 := by
  induction ch using dirSkeleton.induct with
  | case1 => simp [dirSkeleton, countFilesIn]
  | case2 name content rest ih =>
    simp only [dirSkeleton]
    exact ih
  | case3 name sub rest ih1 ih2 =>
    simp only [dirSkeleton, countFilesIn]
    rw [ih1, ih2]

theorem exportDir_eq_skeleton
    (exporter : List (String × FSNode) → List (String × FSNode))
    (ch : List (String × FSNode)) (h : noStoreMarker ch = true) :
    exportDir exporter ch = dirSkeleton ch := by
  induction ch using dirSkeleton.induct with
  | case1 => simp [exportDir, dirSkeleton]
  | case2 name content rest ih =>
    simp only [noStoreMarker] at h
    simp only [exportDir, dirSkeleton]
    exact ih h
  | case3 name sub rest ih1 ih2 =>
    simp only [noStoreMarker, Bool.and_eq_true, Bool.not_eq_true'] at h
    obtain ⟨⟨hname, hsub⟩, hrest⟩ := h
    simp only [exportDir, dirSkeleton, hname]
    rw [if_neg (by simp [hname])]
    rw [ih1 hsub, ih2 hrest]

/-- Claim C8: on a source listing containing only plain directories (no
directory named `Maildir` at any depth), the export produces exactly the
specification-side directory-structure mirror, whatever the maildir exporter
would do, and that mirror contains zero files: non-directory children are
skipped entirely and never copied. -/
theorem exportDir_plain_mirror
    (exporter : List (String × FSNode) → List (String × FSNode))
    (ch : List (String × FSNode)) (h : noStoreMarker ch = true) :
    exportDir exporter ch = dirSkeleton ch ∧
    countFilesIn (exportDir exporter ch) = 0 := by
  have he := exportDir_eq_skeleton exporter ch h
  exact ⟨he, by rw [he]; exact dirSkeleton_no_files ch⟩

/-- Witness for claim C8 at a concrete plain tree with a nested directory
and a stray file. -/
theorem exportDir_plain_mirror_witness :
    exportDir (fun l => l)
      [("x", FSNode.dir [("y", FSNode.dir [])]), ("f", FSNode.file [1])] =
      dirSkeleton
        [("x", FSNode.dir [("y", FSNode.dir [])]), ("f", FSNode.file [1])] ∧
    countFilesIn (exportDir (fun l => l)
      [("x", FSNode.dir [("y", FSNode.dir [])]), ("f", FSNode.file [1])]) = 0 :=
  exportDir_plain_mirror (fun l => l)
    [("x", FSNode.dir [("y", FSNode.dir [])]), ("f", FSNode.file [1])]
    (by simp [noStoreMarker])

/-- Witness for the amended claim C2 at a concrete subject. -/
theorem fileName_unsafe_only_fixed_witness :
    (sanitizeSubject ['h', 'i']).all safeChar = true :=
  (fileName_unsafe_only_fixed ⟨2020, 1, 2, 3, 4, 5⟩ ['h', 'i']).2.1
